import Mathlib

/-!
Shallow embedding of the client-side runtime core of the OUDAR Avocats site:
the reactive state store (`StateManager`), the lazy module loader
(`LazyLoader`) and the event bus (`EventManager`), together with proofs of
the behavioural claims made about them.

JavaScript primitive values are modelled by the inductive type `Value`;
the strict-inequality test `!==` used by the store on these primitives is
value inequality.  State is modelled as a total map `String → Value`
(reads of absent keys yield `Value.undef`, matching `undefined`).
Callbacks and host operations that may throw are modelled as functions
into `Except String _`; a JavaScript `try`/`catch` becomes a `match` on
that result.  Asynchronous code is modelled by splitting each `async`
function at its `await` points into an atomic synchronous step function
plus explicit resolution steps, exactly as the single-threaded event loop
interleaves them.
-/

namespace SiteRuntime

/-- JavaScript primitive values as stored in the state map and event data. -/
inductive Value where
  | undef
  | null
  | bool (b : Bool)
  | num (n : Int)
  | str (s : String)
deriving DecidableEq, Repr

/-- The state store contents: `this.state` of `StateManager`.  A total map;
keys never written read as `Value.undef`. -/
def StateMap : Type := String → Value

/-- A middleware entry: `(key, candidateValue, oldValue) => value`. -/
def Middleware : Type := String → Value → Value → Value

/-- `StateManager.applyMiddleware`: folds the registered middleware chain over
the candidate value, each middleware receiving the key and old value. -/
def applyMiddleware (mws : List Middleware) (key : String) (value oldValue : Value) : Value :=
  mws.foldl (fun processedValue m => m key processedValue oldValue) value

/-- A subscriber callback `(newValue, oldValue, key) => void` that may throw,
tagged with an identity so invocations can be counted. -/
structure Subscriber where
  id : Nat
  run : Value → Value → String → Except String Unit

/-- `StateManager.notifySubscribers`: invokes every callback registered for the
key, each inside its own try/catch; a throw is caught and logged.  The result
records, per callback in order, its id and the caught error message (if any). -/
def notifySubscribers (subs : List Subscriber) (key : String) (newValue oldValue : Value) :
    List (Nat × Option String) :=
  subs.map (fun cb =>
    match cb.run newValue oldValue key with
    | .ok _ => (cb.id, none)
    | .error e => (cb.id, some e))

/-- The allow-list of keys persisted immediately on every `setState`
(`autoSaveKeys` in `StateManager.autoSave`). -/
def autoSaveKeys : List String := ["currentLanguage", "darkMode", "cookiePreferences"]

/-- `StateManager.autoSave`: the `localStorage.setItem` writes performed for an
allow-listed key (storage key is prefixed with `oudar-`); empty otherwise. -/
def autoSave (key : String) (value : Value) : List (String × Value) :=
  if key ∈ autoSaveKeys then [("oudar-" ++ key, value)] else []

/-- The `StateManager` instance state relevant to the claims: the state map,
the per-key subscriber registry and the middleware chain. -/
structure Manager where
  state : StateMap
  subscribers : String → List Subscriber
  middleware : List Middleware

/-- Result of a `setState` call: the mutated manager, the subscriber
invocations performed (empty when no notification fired) and the immediate
persistent-storage writes. -/
structure SetStateResult where
  manager : Manager
  invocations : List (Nat × Option String)
  writes : List (String × Value)

/-- `StateManager.setState(key, value, notify = true)`: applies middleware,
stores the result, notifies subscribers when `notify` holds and the
post-middleware value differs (`!==`) from the old value, then auto-saves
allow-listed keys unconditionally. -/
def setState (m : Manager) (key : String) (value : Value) (notify : Bool) : SetStateResult :=
  let oldValue := m.state key
  let processedValue := applyMiddleware m.middleware key value oldValue
  let state' : StateMap := fun k => if k = key then processedValue else m.state k
  let invocations :=
    if notify ∧ oldValue ≠ processedValue then
      notifySubscribers (m.subscribers key) key processedValue oldValue
    else []
  ⟨⟨state', m.subscribers, m.middleware⟩, invocations, autoSave key processedValue⟩

/-- A notification dispatched during `setMultipleStates`, recording the store
contents (`snapshot`) visible to the subscriber at the moment it runs, so a
callback reading `getState` of another key is modelled faithfully. -/
structure Note where
  key : String
  newValue : Value
  oldValue : Value
  snapshot : StateMap

/-- The mutation phase of `StateManager.setMultipleStates`: the
`Object.entries(updates).forEach` loop that applies middleware, writes each
key and collects `{key, oldValue, newValue}` for the keys that changed. -/
def applyUpdates (mws : List Middleware) : StateMap → List (String × Value) →
    StateMap × List (String × Value × Value)
  | st, [] => (st, [])
  | st, kv :: rest =>
      let oldValue := st kv.1
      let processedValue := applyMiddleware mws kv.1 kv.2 oldValue
      let st' : StateMap := fun k => if k = kv.1 then processedValue else st k
      let r := applyUpdates mws st' rest
      (r.1, (if oldValue ≠ processedValue then [(kv.1, oldValue, processedValue)] else []) ++ r.2)

/-- Result of a `setMultipleStates` call: final state, collected changes, the
notifications fired after all mutations, and the immediate storage writes
(none: `setMultipleStates` never calls `autoSave`). -/
structure MultiResult where
  state : StateMap
  changes : List (String × Value × Value)
  notes : List Note
  writes : List (String × Value)

/-- `StateManager.setMultipleStates(updates, notify = true)`: first mutates the
store for every entry, collecting the changes; only then, if `notify` holds,
notifies subscribers for each changed key in collection order.  Every
notification runs against the final post-mutation store, and no immediate
storage write is performed. -/
def setMultipleStates (mws : List Middleware) (st : StateMap)
    (updates : List (String × Value)) (notify : Bool) : MultiResult :=
  let r := applyUpdates mws st updates
  let notes :=
    if notify then r.2.map (fun c => Note.mk c.1 c.2.2 c.2.1 r.1) else []
  ⟨r.1, r.2, notes, []⟩

/-- `StateManager.getState(key)`. -/
def getState (st : StateMap) (key : String) : Value := st key

/-- A subscriber callback that returns normally. -/
def demoSubscriberOk : Subscriber := ⟨1, fun _ _ _ => .ok ()⟩

/-- A subscriber callback that throws. -/
def demoSubscriberThrowing : Subscriber := ⟨2, fun _ _ _ => .error "subscriber threw"⟩

/-- A concrete manager used to exercise the store theorems: a throwing and a
normal subscriber registered on `currentLanguage`, no middleware, all state
fields unset. -/
def demoManager : Manager :=
  ⟨fun _ => Value.undef,
   fun k => if k = "currentLanguage" then [demoSubscriberThrowing, demoSubscriberOk] else [],
   []⟩

/-- `CONFIG.PERFORMANCE.MAX_RETRIES` from `config/settings.js`. -/
def MAX_RETRIES : Nat := 3

/-- Association-list lookup used to model the `Map` fields of `LazyLoader`
(`Map.prototype.get`, returning `undefined` as `none` when absent). -/
def mapGet {α : Type} : List (String × α) → String → Option α
  | [], _ => none
  | p :: rest, name => if p.1 = name then some p.2 else mapGet rest name

/-- `Map.prototype.set`: replaces the value at an existing key in place (a
`Map` holds each key once), or appends a new entry in insertion order. -/
def mapSet {α : Type} : List (String × α) → String → α → List (String × α)
  | [], name, a => [(name, a)]
  | p :: rest, name, a =>
      if p.1 = name then (name, a) :: rest else p :: mapSet rest name a

/-- `Map.prototype.delete`: removes the entries for `name`. -/
def mapDelete {α : Type} (entries : List (String × α)) (name : String) :
    List (String × α) :=
  entries.filter (fun p => ¬ p.1 = name)

/-- The `LazyLoader` instance state.  Module contents and in-flight promises
are identified by `Nat` tokens; promise identity models JavaScript promise
identity so "the same in-flight future" is token equality. -/
structure LoaderState where
  loadedModules : List (String × Nat)
  pendingLoads : List (String × Nat)
  failedLoads : List String
  retryCount : List (String × Nat)
deriving DecidableEq, Repr

/-- The empty state built by the `LazyLoader` constructor. -/
def LoaderState.initial : LoaderState := ⟨[], [], [], []⟩

/-- The possible outcomes of the synchronous prefix of
`LazyLoader.loadModule`, up to (and including) recording a fresh fetch in
`pendingLoads`.  `cached`/`inflight` carry the returned value or promise;
`condNotMet`/`skippedMaxRetries` are the `return null` paths; `started p`
means `dynamicImport` was invoked (the one place the registry loader runs)
and its promise `p` stored in `pendingLoads`. -/
inductive LoadOutcome where
  | cached (m : Nat)
  | inflight (p : Nat)
  | condNotMet
  | skippedMaxRetries
  | started (p : Nat)
deriving DecidableEq, Repr

/-- Whether an outcome invoked the registry loader (`dynamicImport`). -/
def LoadOutcome.isStarted : LoadOutcome → Bool
  | .started _ => true
  | _ => false

/-- `LazyLoader.loadModule(moduleName, condition)` up to its `await`: returns
the cached module, else the in-flight promise, else null when the condition
fails, else null when the module is failed with `retryCount` at the maximum,
else starts a fresh fetch `newPromise` and records it in `pendingLoads`. -/
def loadModuleStep (st : LoaderState) (name : String) (cond : Bool) (newPromise : Nat) :
    LoadOutcome × LoaderState :=
  match mapGet st.loadedModules name with
  | some m => (.cached m, st)
  | none =>
    match mapGet st.pendingLoads name with
    | some p => (.inflight p, st)
    | none =>
      if ¬ cond then (.condNotMet, st)
      else if name ∈ st.failedLoads ∧ MAX_RETRIES ≤ (mapGet st.retryCount name).getD 0 then
        (.skippedMaxRetries, st)
      else (.started newPromise, { st with pendingLoads := mapSet st.pendingLoads name newPromise })

/-- The success continuation of `loadModule` (after `await modulePromise`
resolves with `module`): cache the module, clear `pendingLoads`,
`failedLoads` and `retryCount` for the name. -/
def resolveSuccess (st : LoaderState) (name : String) (module : Nat) : LoaderState :=
  { loadedModules := mapSet st.loadedModules name module
    pendingLoads := mapDelete st.pendingLoads name
    failedLoads := st.failedLoads.erase name
    retryCount := mapDelete st.retryCount name }

/-- The failure continuation of `loadModule` (the `catch` block): clear
`pendingLoads`, add the name to `failedLoads` (a `Set`, so no duplicate) and
increment `retryCount`; the caller receives null. -/
def resolveFailure (st : LoaderState) (name : String) : LoaderState :=
  { st with
    pendingLoads := mapDelete st.pendingLoads name
    failedLoads := if name ∈ st.failedLoads then st.failedLoads else st.failedLoads ++ [name]
    retryCount := mapSet st.retryCount name ((mapGet st.retryCount name).getD 0 + 1) }

/-- Outcome of `LazyLoader.retryModule`: either the max-retries warning path
returning null, or delegation to `loadModule` with its outcome. -/
inductive RetryOutcome where
  | nullMaxRetries
  | delegated (o : LoadOutcome)
deriving DecidableEq, Repr

/-- `LazyLoader.retryModule(moduleName)`: when the name is not failed it
delegates directly to `loadModule` (default condition); when failed with
`retryCount` at the maximum it returns null; otherwise it deletes only the
`failed` flag and delegates to `loadModule`.  `retryCount` is never touched
here. -/
def retryModuleStep (st : LoaderState) (name : String) (newPromise : Nat) :
    RetryOutcome × LoaderState :=
  if name ∉ st.failedLoads then
    let r := loadModuleStep st name true newPromise
    (.delegated r.1, r.2)
  else if MAX_RETRIES ≤ (mapGet st.retryCount name).getD 0 then
    (.nullMaxRetries, st)
  else
    let st₁ := { st with failedLoads := st.failedLoads.erase name }
    let r := loadModuleStep st₁ name true newPromise
    (.delegated r.1, r.2)

/-- A sequence of `loadModule` calls for one name, each with its own
condition and fresh promise token, run before any resolution step (the
event-loop interleaving of concurrent callers). -/
def repeatedCalls (st : LoaderState) (name : String) :
    List (Bool × Nat) → List LoadOutcome × LoaderState
  | [] => ([], st)
  | c :: cs =>
      let r := loadModuleStep st name c.1 c.2
      let rest := repeatedCalls r.2 name cs
      (r.1 :: rest.1, rest.2)

/-- An entry of `EventManager.eventHistory`: `{name, data, timestamp, time}`
(`timestamp` is `Date.now()` in milliseconds, `time` the ISO string). -/
structure HistoryEntry where
  name : String
  data : Value
  timestamp : Nat
  time : String
deriving DecidableEq, Repr

/-- `this.maxHistorySize` set in the `EventManager` constructor. -/
def maxHistorySize : Nat := 100

/-- `EventManager.addToHistory(eventName, data)`: unshifts the new entry to
the front of `eventHistory`, then truncates with `slice(0, maxHistorySize)`
when the length exceeds the capacity. -/
def addToHistory (hist : List HistoryEntry) (name : String) (data : Value)
    (ts : Nat) (iso : String) : List HistoryEntry :=
  let h := HistoryEntry.mk name data ts iso :: hist
  if maxHistorySize < h.length then h.take maxHistorySize else h

/-- The `EventManager` instance state relevant to the claims: the listener
registry (event name → ids of `{handler, target}` registrations) and the
bounded event history. -/
structure EventManager where
  listeners : List (String × List Nat)
  eventHistory : List HistoryEntry
deriving DecidableEq, Repr

/-- The result of `new CustomEvent(eventName, {detail: data, ...})`. -/
structure CustomEvent where
  name : String
  detail : Value
deriving DecidableEq, Repr

/-- `EventManager.emit(eventName, data, target)`: inside one try/catch, build
the `CustomEvent`, add `{name, data, timestamp}` to the history, then
dispatch to the target; any throw from construction or dispatch is caught,
logged and turned into a null (`none`) return.  The host behaviours that may
throw — event construction and `target.dispatchEvent` — are parameters.
Returns the event (or `none`), the mutated manager and the error log lines. -/
def emit (em : EventManager) (name : String) (data : Value) (ts : Nat) (iso : String)
    (construct : String → Value → Except String CustomEvent)
    (dispatch : CustomEvent → Except String Unit) :
    Option CustomEvent × EventManager × List String :=
  match construct name data with
  | .error _ => (none, em, ["Failed to emit event: " ++ name])
  | .ok event =>
    let em' := { em with eventHistory := addToHistory em.eventHistory name data ts iso }
    match dispatch event with
    | .error _ => (none, em', ["Failed to emit event: " ++ name])
    | .ok _ => (some event, em', [])

/-- `EventManager.on(eventName, handler, target)`: records the registration
in the listener registry (history untouched). -/
def onListener (em : EventManager) (name : String) (listenerId : Nat) : EventManager :=
  { em with listeners :=
      match mapGet em.listeners name with
      | some ids => mapSet em.listeners name (ids ++ [listenerId])
      | none => mapSet em.listeners name [listenerId] }

/-- `EventManager.off(eventName)`: drops every registration for the name
(history untouched). -/
def offListener (em : EventManager) (name : String) : EventManager :=
  { em with listeners := mapDelete em.listeners name }

/-- `EventManager.getHistory(limit = 10)`: `slice(0, limit)`. -/
def getHistory (em : EventManager) (limit : Nat) : List HistoryEntry :=
  em.eventHistory.take limit

/-- `EventManager.getHistoryFor(eventName, limit = 10)`: filter by name, then
`slice(0, limit)`. -/
def getHistoryFor (em : EventManager) (name : String) (limit : Nat) : List HistoryEntry :=
  (em.eventHistory.filter (fun entry => entry.name = name)).take limit

/-- `EventManager.clearHistory()`. -/
def clearHistory (em : EventManager) : EventManager :=
  { em with eventHistory := [] }

/-- `EventManager.destroy()`: removes every listener and clears the
history. -/
def destroy (_em : EventManager) : EventManager :=
  ⟨[], []⟩

/-- A host event constructor that behaves normally (`new CustomEvent` with
`detail` set to the data). -/
def okConstruct : String → Value → Except String CustomEvent :=
  fun nm dt => .ok ⟨nm, dt⟩

/-- A host event constructor that throws. -/
def failingConstruct : String → Value → Except String CustomEvent :=
  fun _ _ => .error "construct threw"

/-- A dispatch target whose `dispatchEvent` succeeds. -/
def okDispatch : CustomEvent → Except String Unit :=
  fun _ => .ok ()

/-- A dispatch target whose `dispatchEvent` throws. -/
def failingDispatch : CustomEvent → Except String Unit :=
  fun _ => .error "dispatch threw"

/-- A freshly constructed `EventManager`: no listeners, empty history. -/
def emptyBus : EventManager := ⟨[], []⟩

/-! ### Facts about the association-list `Map` model -/

theorem mapGet_mapSet_self {α : Type} (l : List (String × α)) (name : String) (a : α) :
    mapGet (mapSet l name a) name = some a := by
  induction l with
  | nil => simp [mapSet, mapGet]
  | cons p rest ih =>
      by_cases h : p.1 = name
      · simp [mapSet, mapGet, h]
      · simp [mapSet, mapGet, h, ih]

theorem mapGet_mapDelete_self {α : Type} (l : List (String × α)) (name : String) :
    mapGet (mapDelete l name) name = none := by
  induction l with
  | nil => simp [mapDelete, mapGet]
  | cons p rest ih =>
      by_cases h : p.1 = name
      · simpa [mapDelete, List.filter_cons, h] using ih
      · simpa [mapDelete, List.filter_cons, h, mapGet] using ih

/-! ### Module loader lemmas -/

theorem loadModuleStep_inflight (st : LoaderState) (name : String) (c : Bool) (q p : Nat)
    (hl : mapGet st.loadedModules name = none)
    (hp : mapGet st.pendingLoads name = some p) :
    loadModuleStep st name c q = (.inflight p, st) := by
  simp [loadModuleStep, hl, hp]

theorem repeatedCalls_inflight (st : LoaderState) (name : String) (p : Nat)
    (hl : mapGet st.loadedModules name = none)
    (hp : mapGet st.pendingLoads name = some p) :
    ∀ cs : List (Bool × Nat),
      repeatedCalls st name cs = (cs.map (fun _ => LoadOutcome.inflight p), st) := by
  intro cs
  induction cs with
  | nil => simp [repeatedCalls]
  | cons c rest ih =>
      simp [repeatedCalls, loadModuleStep_inflight st name c.1 c.2 p hl hp, ih]

theorem loadModuleStep_starts (st : LoaderState) (name : String) (q : Nat)
    (hl : mapGet st.loadedModules name = none)
    (hp : mapGet st.pendingLoads name = none)
    (hs : ¬ (name ∈ st.failedLoads ∧ MAX_RETRIES ≤ (mapGet st.retryCount name).getD 0)) :
    loadModuleStep st name true q =
      (.started q, { st with pendingLoads := mapSet st.pendingLoads name q }) := by
  simp [loadModuleStep, hl, hp, hs]

/-- C2: once a load for `name` is in flight (recorded in `pendingLoads` as
promise `p`, with the module not yet cached), every further `loadModule` call
for `name` before resolution — whatever its condition argument — returns the
identical in-flight promise `p`, changes nothing, and never invokes the
registry loader.  Starting from a fresh name, the first call is the unique
`dynamicImport` invocation: over the whole call sequence exactly one fetch
occurs. -/
theorem loadModule_dedups_inflight (st : LoaderState) (name : String) (q : Nat)
    (cs : List (Bool × Nat))
    (hl : mapGet st.loadedModules name = none)
    (hp : mapGet st.pendingLoads name = none)
    (hs : ¬ (name ∈ st.failedLoads ∧ MAX_RETRIES ≤ (mapGet st.retryCount name).getD 0)) :
    loadModuleStep st name true q =
      (.started q, { st with pendingLoads := mapSet st.pendingLoads name q }) ∧
    repeatedCalls { st with pendingLoads := mapSet st.pendingLoads name q } name cs =
      (cs.map (fun _ => LoadOutcome.inflight q),
       { st with pendingLoads := mapSet st.pendingLoads name q }) ∧
    List.countP (fun o => LoadOutcome.isStarted o)
      ((loadModuleStep st name true q).1 ::
       (repeatedCalls { st with pendingLoads := mapSet st.pendingLoads name q } name cs).1) = 1 := by
  have h1 := loadModuleStep_starts st name q hl hp hs
  have h2 := repeatedCalls_inflight { st with pendingLoads := mapSet st.pendingLoads name q }
    name q hl (mapGet_mapSet_self st.pendingLoads name q) cs
  refine ⟨h1, h2, ?_⟩
  have hz : ∀ l : List (Bool × Nat),
      List.countP (fun o => LoadOutcome.isStarted o)
        (l.map (fun _ => LoadOutcome.inflight q)) = 0 := by
    intro l
    induction l with
    | nil => rfl
    | cons a t ih => simp [List.countP_cons, LoadOutcome.isStarted, ih]
  rw [h1, h2]
  simp [List.countP_cons, LoadOutcome.isStarted, hz cs]

/-- Witness for C2 at a concrete input: a fresh loader, module `carousel`,
first call starts promise 1, two further concurrent calls both return
promise 1, and exactly one fetch occurs. -/
theorem loadModule_dedups_inflight_witness :
    (mapGet LoaderState.initial.loadedModules "carousel" = none ∧
     mapGet LoaderState.initial.pendingLoads "carousel" = none ∧
     ¬ ("carousel" ∈ LoaderState.initial.failedLoads ∧
        MAX_RETRIES ≤ (mapGet LoaderState.initial.retryCount "carousel").getD 0)) ∧
    List.countP (fun o => LoadOutcome.isStarted o)
      ((loadModuleStep LoaderState.initial "carousel" true 1).1 ::
       (repeatedCalls
         { LoaderState.initial with
             pendingLoads := mapSet LoaderState.initial.pendingLoads "carousel" 1 }
         "carousel" [(true, 2), (true, 3)]).1) = 1 :=
  ⟨⟨rfl, rfl, by decide⟩,
   (loadModule_dedups_inflight LoaderState.initial "carousel" 1 [(true, 2), (true, 3)]
     rfl rfl (by decide)).2.2⟩

theorem loadModuleStep_skippedMax (st : LoaderState) (name : String) (q : Nat)
    (hl : mapGet st.loadedModules name = none)
    (hp : mapGet st.pendingLoads name = none)
    (hf : name ∈ st.failedLoads)
    (hr : MAX_RETRIES ≤ (mapGet st.retryCount name).getD 0) :
    loadModuleStep st name true q = (.skippedMaxRetries, st) := by
  simp [loadModuleStep, hl, hp, hf, hr]

/-- C3: for a module that is in `failedLoads` with `retryCount` at
`CONFIG.PERFORMANCE.MAX_RETRIES` (and neither cached nor in flight), every
plain `loadModule` call — the automatic route/viewport/interaction paths,
which pass the default always-true condition — returns the null skip result,
leaves the loader state untouched, and never invokes the registry loader. -/
theorem maxRetries_blocks_automatic_loads (st : LoaderState) (name : String) (qs : List Nat)
    (hl : mapGet st.loadedModules name = none)
    (hp : mapGet st.pendingLoads name = none)
    (hf : name ∈ st.failedLoads)
    (hr : MAX_RETRIES ≤ (mapGet st.retryCount name).getD 0) :
    repeatedCalls st name (qs.map (fun q => (true, q))) =
      (qs.map (fun _ => LoadOutcome.skippedMaxRetries), st) ∧
    List.countP (fun o => LoadOutcome.isStarted o)
      (repeatedCalls st name (qs.map (fun q => (true, q)))).1 = 0 := by
  have key : repeatedCalls st name (qs.map (fun q => (true, q))) =
      (qs.map (fun _ => LoadOutcome.skippedMaxRetries), st) := by
    induction qs with
    | nil => simp [repeatedCalls]
    | cons q rest ih =>
        simp [repeatedCalls, loadModuleStep_skippedMax st name q hl hp hf hr, ih]
  refine ⟨key, ?_⟩
  have hz : ∀ l : List Nat,
      List.countP (fun o => LoadOutcome.isStarted o)
        (l.map (fun _ => LoadOutcome.skippedMaxRetries)) = 0 := by
    intro l
    induction l with
    | nil => rfl
    | cons a t ih => simp [List.countP_cons, LoadOutcome.isStarted, ih]
  rw [key]
  simpa using hz qs

/-- Witness for C3 at a concrete input: module `forms` failed three times;
two further automatic calls both return the null skip and no fetch occurs. -/
theorem maxRetries_blocks_automatic_loads_witness :
    (mapGet (LoaderState.mk [] [] ["forms"] [("forms", 3)]).loadedModules "forms" = none ∧
     mapGet (LoaderState.mk [] [] ["forms"] [("forms", 3)]).pendingLoads "forms" = none ∧
     "forms" ∈ (LoaderState.mk [] [] ["forms"] [("forms", 3)]).failedLoads ∧
     MAX_RETRIES ≤ (mapGet (LoaderState.mk [] [] ["forms"] [("forms", 3)]).retryCount "forms").getD 0) ∧
    repeatedCalls (LoaderState.mk [] [] ["forms"] [("forms", 3)]) "forms"
        ([7, 8].map (fun q => (true, q))) =
      ([LoadOutcome.skippedMaxRetries, LoadOutcome.skippedMaxRetries],
       LoaderState.mk [] [] ["forms"] [("forms", 3)]) :=
  ⟨⟨rfl, rfl, by decide, by decide⟩,
   (maxRetries_blocks_automatic_loads (LoaderState.mk [] [] ["forms"] [("forms", 3)])
     "forms" [7, 8] rfl rfl (by decide) (by decide)).1⟩

theorem loadModuleStep_retryCount (st : LoaderState) (name : String) (c : Bool) (q : Nat) :
    ((loadModuleStep st name c q).2).retryCount = st.retryCount := by
  cases h1 : mapGet st.loadedModules name with
  | some m => simp [loadModuleStep, h1]
  | none =>
    cases h2 : mapGet st.pendingLoads name with
    | some p => simp [loadModuleStep, h1, h2]
    | none =>
      by_cases h3 : c
      · by_cases h4 : name ∈ st.failedLoads ∧ MAX_RETRIES ≤ (mapGet st.retryCount name).getD 0
        · simp [loadModuleStep, h1, h2, h3, h4]
        · simp [loadModuleStep, h1, h2, h3, h4]
      · simp [loadModuleStep, h1, h2, h3]

/-- C7: the `retryCount` discipline of the loader.  `resolveSuccess` deletes
the count for the name; `resolveFailure` is the only mutation that grows it
and raises it by exactly one; neither `loadModule` itself nor the manual
`retryModule` touches any count; when the name is not failed, `retryModule`
is `loadModule` with the default condition; and when the name is failed with
count below the maximum, `retryModule` erases only the `failed` flag before
delegating to `loadModule`. -/
theorem retryCount_discipline :
    (∀ (st : LoaderState) (name : String) (m : Nat),
       mapGet (resolveSuccess st name m).retryCount name = none) ∧
    (∀ (st : LoaderState) (name : String),
       mapGet (resolveFailure st name).retryCount name =
         some ((mapGet st.retryCount name).getD 0 + 1)) ∧
    (∀ (st : LoaderState) (name : String) (c : Bool) (q : Nat),
       ((loadModuleStep st name c q).2).retryCount = st.retryCount) ∧
    (∀ (st : LoaderState) (name : String) (q : Nat),
       ((retryModuleStep st name q).2).retryCount = st.retryCount) ∧
    (∀ (st : LoaderState) (name : String) (q : Nat), name ∉ st.failedLoads →
       retryModuleStep st name q =
         (RetryOutcome.delegated (loadModuleStep st name true q).1,
          (loadModuleStep st name true q).2)) ∧
    (∀ (st : LoaderState) (name : String) (q : Nat), name ∈ st.failedLoads →
       (mapGet st.retryCount name).getD 0 < MAX_RETRIES →
       retryModuleStep st name q =
         (RetryOutcome.delegated
            (loadModuleStep { st with failedLoads := st.failedLoads.erase name } name true q).1,
          (loadModuleStep { st with failedLoads := st.failedLoads.erase name } name true q).2)) := by
  refine ⟨?_, ?_, loadModuleStep_retryCount, ?_, ?_, ?_⟩
  · intro st name m
    exact mapGet_mapDelete_self st.retryCount name
  · intro st name
    exact mapGet_mapSet_self st.retryCount name _
  · intro st name q
    by_cases h1 : name ∈ st.failedLoads
    · by_cases h2 : MAX_RETRIES ≤ (mapGet st.retryCount name).getD 0
      · simp [retryModuleStep, h1, h2]
      · simp [retryModuleStep, h1, h2, loadModuleStep_retryCount]
    · simp [retryModuleStep, h1, loadModuleStep_retryCount]
  · intro st name q h
    simp [retryModuleStep, h]
  · intro st name q h1 h2
    simp [retryModuleStep, h1, Nat.not_le.mpr h2]

/-- Witness for C7 at concrete inputs: after a failure the count rises from
0 to 1; a success deletes it; a manual retry of a failed module with count 1
leaves the count at 1 and erases only the `failed` flag. -/
theorem retryCount_discipline_witness :
    mapGet (resolveSuccess (LoaderState.mk [] [] [] [("blog", 2)]) "blog" 4).retryCount "blog"
      = none ∧
    mapGet (resolveFailure LoaderState.initial "forms").retryCount "forms" = some 1 ∧
    ((retryModuleStep (LoaderState.mk [] [] ["forms"] [("forms", 1)]) "forms" 9).2).retryCount
      = [("forms", 1)] ∧
    retryModuleStep (LoaderState.mk [] [] ["forms"] [("forms", 1)]) "forms" 9 =
      (RetryOutcome.delegated
         (loadModuleStep
           { LoaderState.mk [] [] ["forms"] [("forms", 1)] with
               failedLoads := (["forms"] : List String).erase "forms" } "forms" true 9).1,
       (loadModuleStep
           { LoaderState.mk [] [] ["forms"] [("forms", 1)] with
               failedLoads := (["forms"] : List String).erase "forms" } "forms" true 9).2) ∧
    retryModuleStep (LoaderState.mk [] [] [] []) "blog" 5 =
      (RetryOutcome.delegated (loadModuleStep (LoaderState.mk [] [] [] []) "blog" true 5).1,
       (loadModuleStep (LoaderState.mk [] [] [] []) "blog" true 5).2) :=
  ⟨retryCount_discipline.1 (LoaderState.mk [] [] [] [("blog", 2)]) "blog" 4,
   retryCount_discipline.2.1 LoaderState.initial "forms",
   retryCount_discipline.2.2.2.1 (LoaderState.mk [] [] ["forms"] [("forms", 1)]) "forms" 9,
   retryCount_discipline.2.2.2.2.2 (LoaderState.mk [] [] ["forms"] [("forms", 1)]) "forms" 9
     (by decide) (by decide),
   retryCount_discipline.2.2.2.2.1 (LoaderState.mk [] [] [] []) "blog" 5 (by decide)⟩

/-! ### Event bus lemmas -/

theorem take_one_cons {α : Type} (a : α) (l : List α) : (a :: l).take 1 = [a] := rfl

theorem addToHistory_char (hist : List HistoryEntry) (n : String) (d : Value)
    (t : Nat) (i : String) (hlen : hist.length ≤ maxHistorySize) :
    addToHistory hist n d t i =
      HistoryEntry.mk n d t i :: hist.take (maxHistorySize - 1) := by
  rcases Nat.lt_or_ge hist.length maxHistorySize with h | h
  · have hcond : ¬ maxHistorySize < (HistoryEntry.mk n d t i :: hist).length := by
      simp only [List.length_cons]
      omega
    have htake : hist.take (maxHistorySize - 1) = hist :=
      List.take_of_length_le (by simp only [maxHistorySize] at h ⊢; omega)
    rw [addToHistory, if_neg hcond, htake]
  · have heq : hist.length = maxHistorySize := Nat.le_antisymm hlen h
    have hcond : maxHistorySize < (HistoryEntry.mk n d t i :: hist).length := by
      simp only [List.length_cons]
      omega
    rw [addToHistory, if_pos hcond]
    nth_rewrite 1 [show maxHistorySize = (maxHistorySize - 1) + 1 from rfl]
    rw [List.take_succ_cons]

theorem addToHistory_take_one (hist : List HistoryEntry) (n : String) (d : Value)
    (t : Nat) (i : String) :
    (addToHistory hist n d t i).take 1 = [HistoryEntry.mk n d t i] := by
  by_cases hcond : maxHistorySize < (HistoryEntry.mk n d t i :: hist).length
  · rw [addToHistory, if_pos hcond, List.take_take,
      show (1 : Nat) ⊓ maxHistorySize = 1 from rfl]
    exact take_one_cons _ _
  · rw [addToHistory, if_neg hcond]
    exact take_one_cons _ _

theorem addToHistory_filter_take_one (hist : List HistoryEntry) (n : String) (d : Value)
    (t : Nat) (i : String) :
    ((addToHistory hist n d t i).filter (fun en => en.name = n)).take 1 =
      [HistoryEntry.mk n d t i] := by
  have hpe : decide ((HistoryEntry.mk n d t i).name = n) = true := by simp
  by_cases hcond : maxHistorySize < (HistoryEntry.mk n d t i :: hist).length
  · rw [addToHistory, if_pos hcond]
    nth_rewrite 1 [show maxHistorySize = (maxHistorySize - 1) + 1 from rfl]
    rw [List.take_succ_cons, List.filter_cons]
    simp only [hpe, if_true]
    exact take_one_cons _ _
  · rw [addToHistory, if_neg hcond, List.filter_cons]
    simp only [hpe, if_true]
    exact take_one_cons _ _

/-- C6: the event history's length never exceeds the capacity of 100, an
invariant preserved by every bus operation (`emit`, `clearHistory`,
`destroy`; listener registration does not touch the history).  The new entry
is always placed at the front (most-recent-first), below capacity nothing is
dropped, and at capacity exactly the oldest (last) entry is evicted. -/
theorem history_bounded_fifo (em : EventManager) (n ename : String) (d : Value)
    (t : Nat) (i : String) (lid : Nat)
    (construct : String → Value → Except String CustomEvent)
    (dispatch : CustomEvent → Except String Unit)
    (hlen : em.eventHistory.length ≤ maxHistorySize) :
    ((emit em n d t i construct dispatch).2.1.eventHistory.length ≤ maxHistorySize ∧
     (clearHistory em).eventHistory.length ≤ maxHistorySize ∧
     (destroy em).eventHistory.length ≤ maxHistorySize ∧
     (onListener em ename lid).eventHistory = em.eventHistory ∧
     (offListener em ename).eventHistory = em.eventHistory) ∧
    addToHistory em.eventHistory n d t i =
      HistoryEntry.mk n d t i :: em.eventHistory.take (maxHistorySize - 1) ∧
    (em.eventHistory.length < maxHistorySize →
      addToHistory em.eventHistory n d t i = HistoryEntry.mk n d t i :: em.eventHistory) ∧
    (em.eventHistory.length = maxHistorySize →
      addToHistory em.eventHistory n d t i =
        HistoryEntry.mk n d t i :: em.eventHistory.dropLast) := by
  have hchar := addToHistory_char em.eventHistory n d t i hlen
  have h99 := List.length_take (maxHistorySize - 1) em.eventHistory
  have hbound : (addToHistory em.eventHistory n d t i).length ≤ maxHistorySize := by
    rw [hchar]
    simp only [List.length_cons, maxHistorySize] at h99 ⊢
    omega
  refine ⟨⟨?_, by simp [clearHistory], by simp [destroy], rfl, rfl⟩, hchar, ?_, ?_⟩
  · cases hc : construct n d with
    | error e => simpa [emit, hc] using hlen
    | ok ev =>
      cases hd : dispatch ev with
      | error e => simpa [emit, hc, hd] using hbound
      | ok u => simpa [emit, hc, hd] using hbound
  · intro hlt
    rw [hchar, List.take_of_length_le (by simp only [maxHistorySize] at hlt ⊢; omega)]
  · intro heq
    rw [hchar, List.dropLast_eq_take, heq]

/-- Witness for C6 at a concrete input: a bus with a one-entry history;
emitting keeps the bound, the new entry lands at the front and nothing is
evicted below capacity. -/
theorem history_bounded_fifo_witness :
    (EventManager.mk [] [HistoryEntry.mk "old" Value.null 1 "a"]).eventHistory.length ≤
      maxHistorySize ∧
    addToHistory
        (EventManager.mk [] [HistoryEntry.mk "old" Value.null 1 "a"]).eventHistory
        "ui:ready" (Value.num 7) 2 "b" =
      HistoryEntry.mk "ui:ready" (Value.num 7) 2 "b" ::
        [HistoryEntry.mk "old" Value.null 1 "a"] :=
  ⟨by decide,
   (history_bounded_fifo (EventManager.mk [] [HistoryEntry.mk "old" Value.null 1 "a"])
       "ui:ready" "x" (Value.num 7) 2 "b" 0 okConstruct okDispatch
       (by decide)).2.2.1 (by decide)⟩

/-- C9: every failure inside `emit` — event construction or dispatch — is
caught, logged (`Failed to emit event: ...`), and surfaced to the caller as
a null return; only when both steps succeed is the event returned.  `emit`
is a total function of its inputs, so no exception ever propagates. -/
theorem emit_catches_all (em : EventManager) (n : String) (d : Value) (t : Nat) (i : String)
    (construct : String → Value → Except String CustomEvent)
    (dispatch : CustomEvent → Except String Unit) :
    (∀ e, construct n d = .error e →
       emit em n d t i construct dispatch =
         (none, em, ["Failed to emit event: " ++ n])) ∧
    (∀ ev e, construct n d = .ok ev → dispatch ev = .error e →
       emit em n d t i construct dispatch =
         (none, { em with eventHistory := addToHistory em.eventHistory n d t i },
          ["Failed to emit event: " ++ n])) ∧
    (∀ ev, construct n d = .ok ev → dispatch ev = .ok () →
       emit em n d t i construct dispatch =
         (some ev, { em with eventHistory := addToHistory em.eventHistory n d t i }, [])) := by
  refine ⟨?_, ?_, ?_⟩
  · intro e hc
    simp [emit, hc]
  · intro ev e hc hd
    simp [emit, hc, hd]
  · intro ev hc hd
    simp [emit, hc, hd]

/-- Witness for C9 at concrete inputs: a throwing constructor and a throwing
dispatch target both make `emit` return null with the error logged. -/
theorem emit_catches_all_witness :
    emit emptyBus "ui:ready" Value.null 5 "t" failingConstruct okDispatch =
      (none, emptyBus, ["Failed to emit event: " ++ "ui:ready"]) ∧
    emit emptyBus "ui:ready" Value.null 5 "t" okConstruct failingDispatch =
      (none,
       { emptyBus with
           eventHistory := addToHistory emptyBus.eventHistory "ui:ready" Value.null 5 "t" },
       ["Failed to emit event: " ++ "ui:ready"]) :=
  ⟨(emit_catches_all emptyBus "ui:ready" Value.null 5 "t" failingConstruct okDispatch).1
     "construct threw" rfl,
   (emit_catches_all emptyBus "ui:ready" Value.null 5 "t" okConstruct failingDispatch).2.1
     ⟨"ui:ready", Value.null⟩ "dispatch threw" rfl rfl⟩

/-- C10: `emit` appends to the history before dispatching, so it is not
atomic on error: when dispatch throws (and `emit` returns null), the
`{name, data, timestamp}` record has already been added and remains
observable through `getHistory` and `getHistoryFor`. -/
theorem emit_not_atomic_on_dispatch_failure (em : EventManager) (n : String) (d : Value)
    (t : Nat) (i : String)
    (construct : String → Value → Except String CustomEvent)
    (dispatch : CustomEvent → Except String Unit) (ev : CustomEvent) (e : String)
    (hc : construct n d = .ok ev) (hd : dispatch ev = .error e) :
    (emit em n d t i construct dispatch).1 = none ∧
    (emit em n d t i construct dispatch).2.1.eventHistory =
      addToHistory em.eventHistory n d t i ∧
    getHistory (emit em n d t i construct dispatch).2.1 1 = [HistoryEntry.mk n d t i] ∧
    getHistoryFor (emit em n d t i construct dispatch).2.1 n 1 = [HistoryEntry.mk n d t i] := by
  have hemit : emit em n d t i construct dispatch =
      (none, { em with eventHistory := addToHistory em.eventHistory n d t i },
       ["Failed to emit event: " ++ n]) := by
    simp [emit, hc, hd]
  refine ⟨by rw [hemit], by rw [hemit], ?_, ?_⟩
  · rw [hemit]
    exact addToHistory_take_one em.eventHistory n d t i
  · rw [hemit]
    exact addToHistory_filter_take_one em.eventHistory n d t i

/-- Witness for C10 at a concrete input: with a throwing dispatch target the
emitted event is null yet the history entry is present and readable. -/
theorem emit_not_atomic_witness :
    (emit emptyBus "lang:changed" (Value.str "fr") 9 "t" okConstruct failingDispatch).1 =
      none ∧
    getHistory
        (emit emptyBus "lang:changed" (Value.str "fr") 9 "t" okConstruct failingDispatch).2.1
        1 = [HistoryEntry.mk "lang:changed" (Value.str "fr") 9 "t"] :=
  ⟨(emit_not_atomic_on_dispatch_failure emptyBus "lang:changed" (Value.str "fr") 9 "t"
      okConstruct failingDispatch ⟨"lang:changed", Value.str "fr"⟩ "dispatch threw"
      rfl rfl).1,
   (emit_not_atomic_on_dispatch_failure emptyBus "lang:changed" (Value.str "fr") 9 "t"
      okConstruct failingDispatch ⟨"lang:changed", Value.str "fr"⟩ "dispatch threw"
      rfl rfl).2.2.1⟩

/-! ### State store lemmas -/

theorem applyUpdates_not_mem (mws : List Middleware) :
    ∀ (updates : List (String × Value)) (st : StateMap) (k : String),
      k ∉ updates.map Prod.fst → (applyUpdates mws st updates).1 k = st k := by
  intro updates
  induction updates with
  | nil =>
      intro st k _
      rfl
  | cons kv rest ih =>
      intro st k hk
      have hk' : k ≠ kv.1 ∧ k ∉ rest.map Prod.fst := by
        simpa [not_or] using hk
      simp only [applyUpdates]
      rw [ih _ k hk'.2]
      simp [hk'.1]

theorem applyUpdates_congr (mws : List Middleware) :
    ∀ (updates : List (String × Value)) (s t : StateMap),
      (∀ k, k ∈ updates.map Prod.fst → s k = t k) →
      (applyUpdates mws s updates).2 = (applyUpdates mws t updates).2 ∧
      (∀ k, k ∈ updates.map Prod.fst →
        (applyUpdates mws s updates).1 k = (applyUpdates mws t updates).1 k) := by
  intro updates
  induction updates with
  | nil =>
      intro s t _
      exact ⟨rfl, by simp⟩
  | cons kv rest ih =>
      intro s t hagree
      have hk : s kv.1 = t kv.1 := hagree kv.1 (by simp)
      have hagree' : ∀ k, k ∈ rest.map Prod.fst →
          (fun k2 => if k2 = kv.1 then applyMiddleware mws kv.1 kv.2 (s kv.1) else s k2) k =
          (fun k2 => if k2 = kv.1 then applyMiddleware mws kv.1 kv.2 (t kv.1) else t k2) k := by
        intro k hkr
        by_cases h : k = kv.1
        · simp [h, hk]
        · simp only [if_neg h]
          exact hagree k (by simp [hkr])
      have IH := ih _ _ hagree'
      constructor
      · simp only [applyUpdates]
        exact congrArg₂ (· ++ ·) (by rw [hk]) IH.1
      · intro k hkmem
        simp only [applyUpdates]
        have hcases : k = kv.1 ∨ k ∈ rest.map Prod.fst := by simpa using hkmem
        by_cases hr : k ∈ rest.map Prod.fst
        · exact IH.2 k hr
        · have h : k = kv.1 := by tauto
          rw [applyUpdates_not_mem mws rest _ k hr, applyUpdates_not_mem mws rest _ k hr]
          subst h
          simp [hk]

theorem applyUpdates_final (mws : List Middleware) :
    ∀ (updates : List (String × Value)) (st : StateMap),
      (updates.map Prod.fst).Nodup →
      ∀ kv ∈ updates, (applyUpdates mws st updates).1 kv.1 =
        applyMiddleware mws kv.1 kv.2 (st kv.1) := by
  intro updates
  induction updates with
  | nil =>
      intro st _ kv h
      simp at h
  | cons kv0 rest ih =>
      intro st hnd kv hmem
      have hnotin : kv0.1 ∉ rest.map Prod.fst := by
        simp only [List.map_cons, List.nodup_cons] at hnd
        exact hnd.1
      have hndrest : (rest.map Prod.fst).Nodup := by
        simp only [List.map_cons, List.nodup_cons] at hnd
        exact hnd.2
      rcases List.mem_cons.mp hmem with h | h
      · subst h
        simp only [applyUpdates]
        rw [applyUpdates_not_mem mws rest _ kv.1 hnotin]
        simp
      · have hkne : kv.1 ≠ kv0.1 := by
          intro hEq
          exact hnotin (hEq ▸ List.mem_map_of_mem Prod.fst h)
        simp only [applyUpdates]
        rw [ih _ hndrest kv h]
        simp [hkne]

theorem applyUpdates_changes (mws : List Middleware) :
    ∀ (updates : List (String × Value)) (st : StateMap),
      (updates.map Prod.fst).Nodup →
      (applyUpdates mws st updates).2 =
        updates.filterMap (fun kv =>
          if st kv.1 ≠ applyMiddleware mws kv.1 kv.2 (st kv.1) then
            some (kv.1, st kv.1, applyMiddleware mws kv.1 kv.2 (st kv.1))
          else none) := by
  intro updates
  induction updates with
  | nil =>
      intro st _
      rfl
  | cons kv0 rest ih =>
      intro st hnd
      have hnotin : kv0.1 ∉ rest.map Prod.fst := by
        simp only [List.map_cons, List.nodup_cons] at hnd
        exact hnd.1
      have hndrest : (rest.map Prod.fst).Nodup := by
        simp only [List.map_cons, List.nodup_cons] at hnd
        exact hnd.2
      have hagree : ∀ k, k ∈ rest.map Prod.fst →
          (fun k2 => if k2 = kv0.1 then applyMiddleware mws kv0.1 kv0.2 (st kv0.1) else st k2) k =
          st k := by
        intro k hkr
        have hkne : k ≠ kv0.1 := fun hEq => hnotin (hEq ▸ hkr)
        simp [hkne]
      have hcongr := (applyUpdates_congr mws rest _ st hagree).1
      simp only [applyUpdates]
      rw [hcongr, ih st hndrest, List.filterMap_cons]
      by_cases hch : st kv0.1 ≠ applyMiddleware mws kv0.1 kv0.2 (st kv0.1)
      · simp [hch]
      · simp [hch]

theorem filterMap_changes_keys (st : StateMap) (mws : List Middleware) :
    ∀ updates : List (String × Value),
      (updates.filterMap (fun kv =>
          if st kv.1 ≠ applyMiddleware mws kv.1 kv.2 (st kv.1) then
            some (kv.1, st kv.1, applyMiddleware mws kv.1 kv.2 (st kv.1))
          else none)).map Prod.fst =
      (updates.filter (fun kv =>
          decide (st kv.1 ≠ applyMiddleware mws kv.1 kv.2 (st kv.1)))).map Prod.fst := by
  intro updates
  induction updates with
  | nil => rfl
  | cons kv rest ih =>
      simp only [List.filterMap_cons, List.filter_cons]
      by_cases h : st kv.1 ≠ applyMiddleware mws kv.1 kv.2 (st kv.1)
      · rw [if_pos h, if_pos (by simpa using h)]
        simpa using ih
      · rw [if_neg h, if_neg (by simpa using h)]
        exact ih

/-- C1: `setMultipleStates(updates, true)` writes every key's post-middleware
value into the store before any subscriber runs: the final store holds the
processed value for every supplied key; the notifications are exactly the
keys whose processed value differs from the prior value, once each, in the
map's iteration order; every notification runs against the final
post-mutation store; hence a subscriber for one key reading another updated
key during its callback observes the new value. -/
theorem setMultipleStates_mutates_before_notifying (mws : List Middleware) (st : StateMap)
    (updates : List (String × Value)) (hnd : (updates.map Prod.fst).Nodup) :
    (∀ kv ∈ updates,
       getState (setMultipleStates mws st updates true).state kv.1 =
         applyMiddleware mws kv.1 kv.2 (st kv.1)) ∧
    ((setMultipleStates mws st updates true).notes.map Note.key =
       (updates.filter (fun kv =>
           decide (st kv.1 ≠ applyMiddleware mws kv.1 kv.2 (st kv.1)))).map Prod.fst) ∧
    (∀ note ∈ (setMultipleStates mws st updates true).notes,
       note.snapshot = (setMultipleStates mws st updates true).state) ∧
    (∀ note ∈ (setMultipleStates mws st updates true).notes, ∀ kv ∈ updates,
       getState note.snapshot kv.1 = applyMiddleware mws kv.1 kv.2 (st kv.1)) := by
  have hfinal := applyUpdates_final mws updates st hnd
  have hchanges := applyUpdates_changes mws updates st hnd
  have hnotes : (setMultipleStates mws st updates true).notes =
      (applyUpdates mws st updates).2.map
        (fun c => Note.mk c.1 c.2.2 c.2.1 (applyUpdates mws st updates).1) := rfl
  have hstate : ∀ kv ∈ updates,
      getState (setMultipleStates mws st updates true).state kv.1 =
        applyMiddleware mws kv.1 kv.2 (st kv.1) := fun kv hkv => hfinal kv hkv
  have hsnap : ∀ note ∈ (setMultipleStates mws st updates true).notes,
      note.snapshot = (setMultipleStates mws st updates true).state := by
    intro note hnote
    rw [hnotes] at hnote
    rcases List.mem_map.mp hnote with ⟨c, _, rfl⟩
    rfl
  refine ⟨hstate, ?_, hsnap, ?_⟩
  · rw [hnotes, List.map_map, hchanges]
    have hcomp : (Note.key ∘ fun c : String × Value × Value =>
        Note.mk c.1 c.2.2 c.2.1 (applyUpdates mws st updates).1) = Prod.fst := rfl
    rw [hcomp]
    exact filterMap_changes_keys st mws updates
  · intro note hnote kv hkv
    show note.snapshot kv.1 = _
    rw [hsnap note hnote]
    exact hstate kv hkv

/-- Witness for C1 at the spec's own example: `setMultipleStates({a: 1, b: 2})`
on an empty store notifies `a` and `b` once each, and every notification's
store snapshot already holds `2` at `b`. -/
theorem setMultipleStates_mutates_before_notifying_witness :
    (([("a", Value.num 1), ("b", Value.num 2)].map Prod.fst).Nodup) ∧
    ((setMultipleStates [] (fun _ => Value.undef)
        [("a", Value.num 1), ("b", Value.num 2)] true).notes.map Note.key =
      ([("a", Value.num 1), ("b", Value.num 2)].filter (fun kv =>
          decide ((fun _ => Value.undef : StateMap) kv.1 ≠
            applyMiddleware [] kv.1 kv.2 ((fun _ => Value.undef : StateMap) kv.1)))).map
        Prod.fst) ∧
    (∀ note ∈ (setMultipleStates [] (fun _ => Value.undef)
        [("a", Value.num 1), ("b", Value.num 2)] true).notes,
      getState note.snapshot "b" =
        applyMiddleware [] "b" (Value.num 2) (Value.undef)) :=
  ⟨by decide,
   (setMultipleStates_mutates_before_notifying [] (fun _ => Value.undef)
      [("a", Value.num 1), ("b", Value.num 2)] (by decide)).2.1,
   fun note hnote =>
     (setMultipleStates_mutates_before_notifying [] (fun _ => Value.undef)
        [("a", Value.num 1), ("b", Value.num 2)] (by decide)).2.2.2 note hnote
       ("b", Value.num 2) (by simp)⟩

/-- C4 counterexample: `setMultipleStates` changing the allow-listed key
`darkMode` performs no immediate persistent-storage write — the mutation
loop of `setMultipleStates` never calls `autoSave`, so the claim that both
write operations persist allow-listed keys immediately fails here. -/
theorem setMultipleStates_skips_autoSave_cex :
    "darkMode" ∈ autoSaveKeys ∧
    getState (setMultipleStates [] (fun _ => Value.bool false)
        [("darkMode", Value.bool true)] true).state "darkMode" = Value.bool true ∧
    (setMultipleStates [] (fun _ => Value.bool false)
        [("darkMode", Value.bool true)] true).writes = [] := by
  refine ⟨by decide, by decide, rfl⟩

/-- C4 amended: only `setState` performs the immediate per-key persistence.
For every allow-listed key, every `setState` call writes the post-middleware
value to storage (on every call, changed or not, independent of `notify`);
`setMultipleStates` never performs an immediate per-key write, whatever keys
it changes — those keys are persisted only by the periodic snapshot. -/
theorem autoSave_fires_only_in_setState (m : Manager) (key : String) (value : Value)
    (notify : Bool) (mws : List Middleware) (st : StateMap)
    (updates : List (String × Value)) (nfy : Bool) (hkey : key ∈ autoSaveKeys) :
    (setState m key value notify).writes =
      [("oudar-" ++ key, applyMiddleware m.middleware key value (m.state key))] ∧
    (setMultipleStates mws st updates nfy).writes = [] :=
  ⟨by simp [setState, autoSave, hkey], rfl⟩

/-- Witness for the amended C4 at a concrete input: a `setState` of
`darkMode` with `notify = false` and an unchanged value still writes to
storage, while a `setMultipleStates` of the same key writes nothing. -/
theorem autoSave_fires_only_in_setState_witness :
    "darkMode" ∈ autoSaveKeys ∧
    (setState demoManager "darkMode" (Value.bool true) false).writes =
      [("oudar-" ++ "darkMode",
        applyMiddleware demoManager.middleware "darkMode" (Value.bool true)
          (demoManager.state "darkMode"))] ∧
    (setMultipleStates [] (fun _ => Value.undef)
        [("darkMode", Value.bool true)] false).writes = [] :=
  ⟨by decide,
   (autoSave_fires_only_in_setState demoManager "darkMode" (Value.bool true) false
      [] (fun _ => Value.undef) [("darkMode", Value.bool true)] false (by decide)).1,
   (autoSave_fires_only_in_setState demoManager "darkMode" (Value.bool true) false
      [] (fun _ => Value.undef) [("darkMode", Value.bool true)] false (by decide)).2⟩

theorem notifySubscribers_ids (subs : List Subscriber) (key : String) (nv ov : Value) :
    (notifySubscribers subs key nv ov).map Prod.fst = subs.map Subscriber.id := by
  induction subs with
  | nil => rfl
  | cons cb rest ih =>
      cases h : cb.run nv ov key with
      | ok u => simpa [notifySubscribers, h] using ih
      | error e => simpa [notifySubscribers, h] using ih

theorem applyMiddleware_oldValue_irrelevant (mws : List Middleware)
    (hmw : ∀ f ∈ mws, ∀ (k : String) (v o o' : Value), f k v o = f k v o') :
    ∀ (k : String) (v o o' : Value), applyMiddleware mws k v o = applyMiddleware mws k v o' := by
  induction mws with
  | nil =>
      intro k v o o'
      rfl
  | cons f fs ih =>
      intro k v o o'
      have h1 : f k v o = f k v o' := hmw f (by simp) k v o o'
      show applyMiddleware fs k (f k v o) o = applyMiddleware fs k (f k v o') o'
      rw [h1]
      exact ih (fun g hg => hmw g (by simp [hg])) k (f k v o') o o'

theorem setState_no_notify_of_fixed (m : Manager) (key : String) (value : Value)
    (notify : Bool)
    (hfix : m.state key = applyMiddleware m.middleware key value (m.state key)) :
    (setState m key value notify).invocations = [] := by
  simp [setState, ← hfix]

/-- C5: two consecutive `setState(k, v)` calls with the same `v` notify the
subscribers of `k` at most once in total — under the claim's assumption that
the middleware chain is a pure function of the key and candidate value (so
the post-middleware result is unchanged on the second call), the second call
fires no notification, and with distinct subscriber ids each subscriber is
invoked at most once across both calls. -/
theorem setState_twice_notifies_at_most_once (m : Manager) (key : String) (value : Value)
    (hmw : ∀ f ∈ m.middleware, ∀ (k : String) (v o o' : Value), f k v o = f k v o')
    (hsub : ((m.subscribers key).map Subscriber.id).Nodup) :
    (setState (setState m key value true).manager key value true).invocations = [] ∧
    (∀ i : Nat,
      (((setState m key value true).invocations ++
        (setState (setState m key value true).manager key value true).invocations).map
          Prod.fst).count i ≤ 1) := by
  have hp : applyMiddleware m.middleware key value
      (applyMiddleware m.middleware key value (m.state key)) =
      applyMiddleware m.middleware key value (m.state key) :=
    applyMiddleware_oldValue_irrelevant m.middleware hmw key value _ (m.state key)
  have hkey1 : (setState m key value true).manager.state key =
      applyMiddleware m.middleware key value (m.state key) := by
    simp [setState]
  have hmid : (setState m key value true).manager.middleware = m.middleware := rfl
  have hfix : (setState m key value true).manager.state key =
      applyMiddleware (setState m key value true).manager.middleware key value
        ((setState m key value true).manager.state key) := by
    rw [hmid, hkey1]
    exact hp.symm
  have hsecond := setState_no_notify_of_fixed (setState m key value true).manager
    key value true hfix
  refine ⟨hsecond, ?_⟩
  intro i
  rw [hsecond, List.append_nil]
  by_cases c1 : m.state key ≠ applyMiddleware m.middleware key value (m.state key)
  · have hfirst : (setState m key value true).invocations =
        notifySubscribers (m.subscribers key) key
          (applyMiddleware m.middleware key value (m.state key)) (m.state key) := by
      simp [setState, c1]
    rw [hfirst, notifySubscribers_ids]
    exact List.nodup_iff_count_le_one.mp hsub i
  · have hfirst : (setState m key value true).invocations = [] := by
      simp only [not_not] at c1
      exact setState_no_notify_of_fixed m key value true c1
    rw [hfirst]
    simp

/-- Witness for C5 at a concrete input: on `demoManager` (no middleware, two
subscribers with distinct ids on `currentLanguage`), the second identical
`setState` fires no notification. -/
theorem setState_twice_notifies_at_most_once_witness :
    ((demoManager.subscribers "currentLanguage").map Subscriber.id).Nodup ∧
    (setState (setState demoManager "currentLanguage" (Value.str "fr") true).manager
       "currentLanguage" (Value.str "fr") true).invocations = [] :=
  ⟨by decide,
   (setState_twice_notifies_at_most_once demoManager "currentLanguage" (Value.str "fr")
      (by simp [demoManager]) (by decide)).1⟩

/-- C8: when a key with several subscribers changes, every subscriber is
invoked exactly once in registration order even if one of them throws; a
throw is caught inside the store and recorded (logged), `setState` itself
returns normally to its caller, and the subscriber registry — including the
throwing callback — is left untouched. -/
theorem subscriber_throw_isolated (m : Manager) (key : String) (value : Value)
    (hch : m.state key ≠ applyMiddleware m.middleware key value (m.state key)) :
    ((setState m key value true).invocations.map Prod.fst =
      (m.subscribers key).map Subscriber.id) ∧
    (∀ cb ∈ m.subscribers key, ∀ e,
       cb.run (applyMiddleware m.middleware key value (m.state key)) (m.state key) key =
         .error e →
       (cb.id, some e) ∈ (setState m key value true).invocations) ∧
    ((setState m key value true).manager.subscribers = m.subscribers) := by
  have hinv : (setState m key value true).invocations =
      notifySubscribers (m.subscribers key) key
        (applyMiddleware m.middleware key value (m.state key)) (m.state key) := by
    simp [setState, hch]
  refine ⟨by rw [hinv, notifySubscribers_ids], ?_, rfl⟩
  intro cb hcb e he
  rw [hinv]
  simp only [notifySubscribers]
  refine List.mem_map.mpr ⟨cb, hcb, ?_⟩
  rw [he]

/-- Witness for C8 at a concrete input: on `demoManager`, setting
`currentLanguage` invokes both subscribers (ids 2 then 1) although the first
throws, and the thrown error is captured in the invocation record. -/
theorem subscriber_throw_isolated_witness :
    (demoManager.state "currentLanguage" ≠
      applyMiddleware demoManager.middleware "currentLanguage" (Value.str "en")
        (demoManager.state "currentLanguage")) ∧
    ((setState demoManager "currentLanguage" (Value.str "en") true).invocations.map
        Prod.fst =
      (demoManager.subscribers "currentLanguage").map Subscriber.id) ∧
    ((demoSubscriberThrowing.id, some "subscriber threw") ∈
      (setState demoManager "currentLanguage" (Value.str "en") true).invocations) :=
  ⟨by decide,
   (subscriber_throw_isolated demoManager "currentLanguage" (Value.str "en")
      (by decide)).1,
   (subscriber_throw_isolated demoManager "currentLanguage" (Value.str "en")
      (by decide)).2.1 demoSubscriberThrowing (by simp [demoManager]) "subscriber threw"
     rfl⟩

end SiteRuntime
